import Mathlib

/-!
Shallow embedding of `resistor.py` (resistor color-band codec).

Numeric values are modelled as exact rationals (`ℚ`); Python floats are
treated as exact decimal arithmetic, which agrees with CPython on every
concrete value used below.  `math.floor(math.log10 v)` for positive `v`
is `Int.log 10 v`; Python's `round` is round-half-to-even, modelled by
`roundHalfEven`; Python's `//` and `%` on integers are `Int.fdiv` and
`Int.fmod`.  Operations that raise (`ValueError` from `math.log10` on a
non-positive argument, enum lookup failures) return `none`.
-/

namespace Resistor

/-- Round half to even on rationals: the behavior of Python's built-in
`round` applied to a float. -/
def roundHalfEven (q : ℚ) : ℤ :=
  if q - ⌊q⌋ < 1/2 then ⌊q⌋
  else if 1/2 < q - ⌊q⌋ then ⌊q⌋ + 1
  else if ⌊q⌋ % 2 = 0 then ⌊q⌋ else ⌊q⌋ + 1

/-- Fuel-based floor-log recursion for arguments at least 1: divide by 10
until the value drops below 10.  The fuel only bounds the recursion depth. -/
def bigLogAux : ℕ → ℚ → ℤ
  | 0, _ => 0
  | fuel + 1, q => if q < 10 then 0 else bigLogAux fuel (q / 10) + 1

/-- Fuel-based floor-log recursion for arguments strictly between 0 and 1:
multiply by 10 until the value reaches 1/10. -/
def negLogAux : ℕ → ℚ → ℤ
  | 0, _ => 0
  | fuel + 1, q => if 1 ≤ 10 * q then -1 else negLogAux fuel (10 * q) - 1

/-- `math.floor(math.log10 q)` for positive rational `q`, written so that the
kernel can evaluate it on concrete inputs (proved equal to `Int.log 10 q`
below). -/
def floorLog10 (q : ℚ) : ℤ :=
  if 1 ≤ q then bigLogAux q.num.toNat q else negLogAux q.den q

/-- `class Fixed`: a mantissa/exponent pair representing `mantissa * 10^exponent`. -/
structure Fixed where
  mantissa : ℤ
  exponent : ℤ
deriving Repr, DecidableEq

/-- `Fixed.from_float(val, places)`: `base_exponent = floor(log10 val)`;
`exponent = base_exponent - places`; `mantissa = round(val / 10**exponent)`.
`math.log10` raises (`none`) on `val <= 0`. -/
def Fixed.fromFloat (val : ℚ) (places : ℤ) : Option Fixed :=
  if val ≤ 0 then none
  else
    let base_exponent : ℤ := floorLog10 val
    let exponent : ℤ := base_exponent - places
    let mantissa : ℤ := roundHalfEven (val / (10 : ℚ) ^ exponent)
    some ⟨mantissa, exponent⟩

/-- `Fixed.as_float`: `mantissa * 10**exponent`. -/
def Fixed.asFloat (f : Fixed) : ℚ :=
  (f.mantissa : ℚ) * (10 : ℚ) ^ f.exponent

/-- `ValueColor[name]`: name-to-code lookup in the 10-entry digit table
(`KeyError`, i.e. `none`, outside the vocabulary).  `gray` and `grey` are
aliases for code 8. -/
def valueColorCode (name : String) : Option ℤ :=
  match name with
  | "black" => some 0
  | "brown" => some 1
  | "red" => some 2
  | "orange" => some 3
  | "yellow" => some 4
  | "green" => some 5
  | "blue" => some 6
  | "violet" => some 7
  | "gray" => some 8
  | "grey" => some 8
  | "white" => some 9
  | _ => none

/-- `ValueColor(code).name`: code-to-canonical-name lookup (`ValueError`,
i.e. `none`, outside 0..9).  Code 8 displays as `gray`, the first-declared
spelling of the alias pair. -/
def valueColorName (code : ℤ) : Option String :=
  if code = 0 then some "black"
  else if code = 1 then some "brown"
  else if code = 2 then some "red"
  else if code = 3 then some "orange"
  else if code = 4 then some "yellow"
  else if code = 5 then some "green"
  else if code = 6 then some "blue"
  else if code = 7 then some "violet"
  else if code = 8 then some "gray"
  else if code = 9 then some "white"
  else none

/-- `ExponentColor[name]`: name-to-code lookup over black..violet (0..7)
and gold, silver, pink (codes -1, -2, -3). -/
def exponentColorCode (name : String) : Option ℤ :=
  match name with
  | "black" => some 0
  | "brown" => some 1
  | "red" => some 2
  | "orange" => some 3
  | "yellow" => some 4
  | "green" => some 5
  | "blue" => some 6
  | "violet" => some 7
  | "gold" => some (-1)
  | "silver" => some (-2)
  | "pink" => some (-3)
  | _ => none

/-- `ExponentColor(code).name`: code-to-name lookup, domain -3..7. -/
def exponentColorName (code : ℤ) : Option String :=
  if code = 0 then some "black"
  else if code = 1 then some "brown"
  else if code = 2 then some "red"
  else if code = 3 then some "orange"
  else if code = 4 then some "yellow"
  else if code = 5 then some "green"
  else if code = 6 then some "blue"
  else if code = 7 then some "violet"
  else if code = -1 then some "gold"
  else if code = -2 then some "silver"
  else if code = -3 then some "pink"
  else none

/-- `TolerancePercentColor[name]`: name-to-percent lookup.  `gray` and
`grey` both map to 0.05. -/
def tolerancePercentOfName (name : String) : Option ℚ :=
  match name with
  | "brown" => some 1
  | "red" => some 2
  | "green" => some (1/2)
  | "blue" => some (1/4)
  | "violet" => some (1/10)
  | "gray" => some (1/20)
  | "grey" => some (1/20)
  | "gold" => some 5
  | "silver" => some 10
  | "none" => some 20
  | _ => none

/-- `TolerancePercentColor(percent).name`: percent-to-canonical-name
lookup over the fixed finite percentage set.  0.05 displays as `gray`. -/
def toleranceNameOfPercent (percent : ℚ) : Option String :=
  if percent = 1 then some "brown"
  else if percent = 2 then some "red"
  else if percent = 1/2 then some "green"
  else if percent = 1/4 then some "blue"
  else if percent = 1/10 then some "violet"
  else if percent = 1/20 then some "gray"
  else if percent = 5 then some "gold"
  else if percent = 10 then some "silver"
  else if percent = 20 then some "none"
  else none

/-- The fixed set of tolerance percentages appearing in the table. -/
def tolerancePercentages : List ℚ :=
  [1, 2, 1/2, 1/4, 1/10, 1/20, 5, 10, 20]

/-- `si_prefixer(value)`: walk the table 3 ↦ "k", 6 ↦ "M" from the largest
exponent down, stop at the first `exp` with `math.floor(value / 10**exp)`
nonzero, and return `(value / 10**exp, prefix)`; raise (`none`) when no
entry qualifies. -/
def si_prefixer (value : ℚ) : Option (ℚ × String) :=
  if ⌊value / (10 : ℚ) ^ (6 : ℕ)⌋ ≠ 0 then some (value / (10 : ℚ) ^ (6 : ℕ), "M")
  else if ⌊value / (10 : ℚ) ^ (3 : ℕ)⌋ ≠ 0 then some (value / (10 : ℚ) ^ (3 : ℕ), "k")
  else none

/-- `class ResistorValue`: wraps one `Fixed`. -/
structure ResistorValue where
  fixed : Fixed
deriving Repr, DecidableEq

/-- `ResistorValue.from_float(val)`: `Fixed.from_float(val, 2)`. -/
def ResistorValue.fromFloat (val : ℚ) : Option ResistorValue :=
  (Fixed.fromFloat val 2).map ResistorValue.mk

/-- `ResistorValue.from_three_bands`: `value = ValueColor[first]*10 +
ValueColor[second]`, `exp_val = ExponentColor[exponent]`, wrapped in a
`Fixed`.  Lookup failures propagate in source order. -/
def ResistorValue.fromThreeBands (first second exponent : String) : Option ResistorValue :=
  (valueColorCode first).bind fun c1 =>
    (valueColorCode second).bind fun c2 =>
      (exponentColorCode exponent).map fun e => ⟨⟨c1 * 10 + c2, e⟩⟩

/-- `ResistorValue.from_four_bands`: `value = ValueColor[first]*100 +
ValueColor[second]*10 + ValueColor[third]`, `exp_val = ExponentColor[exponent]`. -/
def ResistorValue.fromFourBands (first second third exponent : String) : Option ResistorValue :=
  (valueColorCode first).bind fun c1 =>
    (valueColorCode second).bind fun c2 =>
      (valueColorCode third).bind fun c3 =>
        (exponentColorCode exponent).map fun e => ⟨⟨c1 * 100 + c2 * 10 + c3, e⟩⟩

/-- `ResistorValue.as_three_bands`: `dec = Fixed.from_float(self.fixed.as_float(), 1)`;
`first = ValueColor(dec.mantissa // 10)`, `second = ValueColor(dec.mantissa % 10)`,
`exponent = ExponentColor(dec.exponent)`; returns the three names. -/
def ResistorValue.asThreeBands (r : ResistorValue) : Option (String × String × String) :=
  (Fixed.fromFloat r.fixed.asFloat 1).bind fun dec =>
    (valueColorName (dec.mantissa.fdiv 10)).bind fun first =>
      (valueColorName (dec.mantissa.fmod 10)).bind fun second =>
        (exponentColorName dec.exponent).map fun exponent => (first, second, exponent)

/-- `ResistorValue.as_four_bands`: `fixed = Fixed.from_float(self.fixed.as_float(), 2)`;
`first = ValueColor(fixed.mantissa // 100)`,
`second = ValueColor((fixed.mantissa - first*100) // 10)`,
`third = ValueColor(fixed.mantissa % 10)`, `exponent = ExponentColor(fixed.exponent)`. -/
def ResistorValue.asFourBands (r : ResistorValue) : Option (String × String × String × String) :=
  (Fixed.fromFloat r.fixed.asFloat 2).bind fun fixed =>
    (valueColorName (fixed.mantissa.fdiv 100)).bind fun first =>
      (valueColorName ((fixed.mantissa - (fixed.mantissa.fdiv 100) * 100).fdiv 10)).bind fun second =>
        (valueColorName (fixed.mantissa.fmod 10)).bind fun third =>
          (exponentColorName fixed.exponent).map fun exponent => (first, second, third, exponent)

/-- `ResistorValue.value` property: `self.fixed.as_float()`. -/
def ResistorValue.value (r : ResistorValue) : ℚ :=
  r.fixed.asFloat

/-- Take the first `n` characters of a string. -/
def strTake (s : String) (n : ℕ) : String :=
  String.mk (s.data.take n)

/-- Drop the first `n` characters of a string. -/
def strDrop (s : String) (n : ℕ) : String :=
  String.mk (s.data.drop n)

/-- Python's `str.strip()` for the strings produced here (only space can
occur at either end). -/
def strStrip (s : String) : String :=
  String.mk (((s.data.dropWhile (· = ' ')).reverse.dropWhile (· = ' ')).reverse)

/-- Strip trailing zeros from a fractional digit string. -/
def stripFracZeros (s : String) : String :=
  String.mk ((s.data.reverse.dropWhile (· = '0')).reverse)

/-- Python `format(q, "g")` for a positive rational: round to 6 significant
digits, then use fixed notation when the decimal exponent is in [-4, 6) and
scientific notation (two-digit exponent) otherwise, trimming trailing
fractional zeros. -/
def formatGPos (q : ℚ) : String :=
  let e0 : ℤ := floorLog10 q
  let sig0 : ℤ := roundHalfEven (q / (10 : ℚ) ^ (e0 - 5))
  let sig : ℤ := if sig0 = 10 ^ (6 : ℕ) then 10 ^ (5 : ℕ) else sig0
  let e : ℤ := if sig0 = 10 ^ (6 : ℕ) then e0 + 1 else e0
  let ds : String := Nat.repr sig.toNat
  if -4 ≤ e ∧ e < 6 then
    if 0 ≤ e then
      let k : ℕ := (e + 1).toNat
      let intPart := strTake ds k
      let frac := stripFracZeros (strDrop ds k)
      if frac = "" then intPart else intPart ++ "." ++ frac
    else
      let zeros := String.mk (List.replicate (-e - 1).toNat '0')
      "0." ++ stripFracZeros (zeros ++ ds)
  else
    let frac := stripFracZeros (strDrop ds 1)
    let mant := if frac = "" then strTake ds 1 else strTake ds 1 ++ "." ++ frac
    let eabs : ℕ := (if 0 ≤ e then e else -e).toNat
    let estr := if eabs < 10 then "0" ++ Nat.repr eabs else Nat.repr eabs
    mant ++ "e" ++ (if 0 ≤ e then "+" else "-") ++ estr

/-- Python `format(q, "g")` on an exact rational. -/
def formatG (q : ℚ) : String :=
  if q = 0 then "0"
  else if q < 0 then "-" ++ formatGPos (-q) else formatGPos q

/-- `ResistorValue.__str__`: try `"{:g} {}Ω".format(*si_prefixer(self.value)).strip()`
and fall back to `f"{self.value:g}Ω"` when `si_prefixer` raises. -/
def ResistorValue.displayStr (r : ResistorValue) : String :=
  match si_prefixer r.value with
  | some (scaled, p) => strStrip (formatG scaled ++ " " ++ p ++ "Ω")
  | none => formatG r.value ++ "Ω"

/-- `str(ResistorValue.from_float(val))`: the display string of the resistor
value constructed from a numeric value (`none` when construction raises). -/
def displayString (val : ℚ) : Option String :=
  (ResistorValue.fromFloat val).map ResistorValue.displayStr

/-- The 3-band round trip of the spec: encode `val` through
`ResistorValue.from_float` and `as_three_bands`, decode the resulting names
with `from_three_bands`, and return the decoded numeric value. -/
def roundTrip3 (val : ℚ) : Option ℚ :=
  (ResistorValue.fromFloat val).bind fun r =>
    r.asThreeBands.bind fun t =>
      (ResistorValue.fromThreeBands t.1 t.2.1 t.2.2).map ResistorValue.value

/-- The 4-band round trip of the spec: encode `val` through
`ResistorValue.from_float` and `as_four_bands`, decode with
`from_four_bands`, and return the decoded numeric value. -/
def roundTrip4 (val : ℚ) : Option ℚ :=
  (ResistorValue.fromFloat val).bind fun r =>
    r.asFourBands.bind fun t =>
      (ResistorValue.fromFourBands t.1 t.2.1 t.2.2.1 t.2.2.2).map ResistorValue.value

/-- The three-band decomposition as the spec describes it, parameterized by
the `places` argument handed to `Fixed.from_float`: re-derive a fixed-point
value from `as_float`, split its mantissa into the tens digit and the units
digit, map each through the value-color table and the exponent through the
exponent-color table.  The claim under test instantiates `places := 2`; the
code uses `places := 1`. -/
def specThreeBandDecomp (places : ℤ) (r : ResistorValue) : Option (String × String × String) :=
  match Fixed.fromFloat r.fixed.asFloat places with
  | none => none
  | some dec =>
    match valueColorName (dec.mantissa.fdiv 10), valueColorName (dec.mantissa.fmod 10),
        exponentColorName dec.exponent with
    | some first, some second, some exponent => some (first, second, exponent)
    | _, _, _ => none

end Resistor

namespace Resistor

lemma roundHalfEven_intCast (n : ℤ) : roundHalfEven (n : ℚ) = n := by
  unfold roundHalfEven
  norm_num

lemma roundHalfEven_bounds (q : ℚ) : ⌊q⌋ ≤ roundHalfEven q ∧ roundHalfEven q ≤ ⌊q⌋ + 1 := by
  unfold roundHalfEven
  split_ifs <;> omega

lemma bigLogAux_spec (fuel : ℕ) : ∀ q : ℚ, 1 ≤ q → q < (10:ℚ) ^ fuel →
    (10:ℚ) ^ bigLogAux fuel q ≤ q ∧ q < (10:ℚ) ^ (bigLogAux fuel q + 1) := by
  induction fuel with
  | zero =>
    intro q h1 h2
    norm_num at h2
    exact absurd (lt_of_le_of_lt h1 h2) (by norm_num)
  | succ fuel ih =>
    intro q h1 h2
    rw [bigLogAux]
    split_ifs with h
    · exact ⟨by simpa using h1, by simpa using h⟩
    · push_neg at h
      have hq10 : (1:ℚ) ≤ q / 10 := by
        rw [le_div_iff₀ (by norm_num : (0:ℚ) < 10)]
        linarith
      have hqpow : q / 10 < (10:ℚ) ^ fuel := by
        rw [div_lt_iff₀ (by norm_num : (0:ℚ) < 10)]
        calc q < (10:ℚ) ^ (fuel + 1) := h2
          _ = (10:ℚ) ^ fuel * 10 := by rw [pow_succ]
      obtain ⟨ihl, ihr⟩ := ih (q / 10) hq10 hqpow
      constructor
      · rw [zpow_add_one₀ (by norm_num : (10:ℚ) ≠ 0)]
        rw [le_div_iff₀ (by norm_num : (0:ℚ) < 10)] at ihl
        linarith
      · rw [zpow_add_one₀ (by norm_num : (10:ℚ) ≠ 0)]
        rw [div_lt_iff₀ (by norm_num : (0:ℚ) < 10)] at ihr
        linarith

lemma negLogAux_spec (fuel : ℕ) : ∀ q : ℚ, 0 < q → q < 1 → 1 ≤ q * (10:ℚ) ^ fuel →
    (10:ℚ) ^ negLogAux fuel q ≤ q ∧ q < (10:ℚ) ^ (negLogAux fuel q + 1) := by
  induction fuel with
  | zero =>
    intro q _ h2 h3
    norm_num at h3
    exact absurd (lt_of_le_of_lt h3 h2) (by norm_num)
  | succ fuel ih =>
    intro q h1 h2 h3
    rw [negLogAux]
    split_ifs with h
    · constructor
      · rw [show ((10:ℚ) ^ (-1 : ℤ)) = 1 / 10 by norm_num]
        rw [div_le_iff₀ (by norm_num : (0:ℚ) < 10)]
        linarith
      · simpa using h2
    · push_neg at h
      have h10q : (0:ℚ) < 10 * q := by linarith
      have h10q1 : 10 * q < 1 := h
      have hfuel : 1 ≤ 10 * q * (10:ℚ) ^ fuel := by
        calc (1:ℚ) ≤ q * (10:ℚ) ^ (fuel + 1) := h3
          _ = 10 * q * (10:ℚ) ^ fuel := by rw [pow_succ]; ring
      obtain ⟨ihl, ihr⟩ := ih (10 * q) h10q h10q1 hfuel
      rw [zpow_add_one₀ (by norm_num : (10:ℚ) ≠ 0)] at ihr
      constructor
      · rw [zpow_sub_one₀ (by norm_num : (10:ℚ) ≠ 0), ← div_eq_mul_inv]
        rw [div_le_iff₀ (by norm_num : (0:ℚ) < 10)]
        linarith
      · have heq : negLogAux fuel (10 * q) - 1 + 1 = negLogAux fuel (10 * q) := by ring
        rw [heq]
        linarith

lemma floorLog10_spec (q : ℚ) (hq : 0 < q) :
    (10:ℚ) ^ floorLog10 q ≤ q ∧ q < (10:ℚ) ^ (floorLog10 q + 1) := by
  unfold floorLog10
  split_ifs with h
  · apply bigLogAux_spec q.num.toNat q h
    have hnum : (0:ℤ) < q.num := Rat.num_pos.mpr hq
    have hden1 : (1:ℚ) ≤ (q.den : ℚ) := by exact_mod_cast q.den_pos
    have hqn : q ≤ (q.num : ℚ) := by
      conv_lhs => rw [← Rat.num_div_den q]
      exact div_le_self (by exact_mod_cast hnum.le) hden1
    have hp : (q.num.toNat : ℚ) < (10:ℚ) ^ q.num.toNat := by
      exact_mod_cast Nat.lt_pow_self (by norm_num : 1 < 10) q.num.toNat
    calc q ≤ (q.num : ℚ) := hqn
      _ = (q.num.toNat : ℚ) := by exact_mod_cast (Int.toNat_of_nonneg hnum.le).symm
      _ < (10:ℚ) ^ q.num.toNat := hp
  · push_neg at h
    apply negLogAux_spec q.den q hq h
    have hnum : (0:ℤ) < q.num := Rat.num_pos.mpr hq
    have hden : (0:ℚ) < (q.den : ℚ) := by exact_mod_cast q.den_pos
    have h1q : 1 / (q.den : ℚ) ≤ q := by
      conv_rhs => rw [← Rat.num_div_den q]
      rw [div_le_div_iff_of_pos_right hden]
      exact_mod_cast hnum
    have hpow : (q.den : ℚ) ≤ (10:ℚ) ^ q.den := by
      exact_mod_cast (Nat.lt_pow_self (by norm_num : 1 < 10) q.den).le
    calc (1:ℚ) = (q.den : ℚ) * (1 / (q.den : ℚ)) := by field_simp
      _ ≤ (10:ℚ) ^ q.den * q := by
        apply mul_le_mul hpow h1q (by positivity) (by positivity)
      _ = q * (10:ℚ) ^ q.den := mul_comm _ _

lemma natCast_ten_zpow (z : ℤ) : (((10:ℕ) : ℚ)) ^ z = (10:ℚ) ^ z := by norm_num

lemma floorLog10_eq_log (q : ℚ) (hq : 0 < q) : floorLog10 q = Int.log 10 q := by
  obtain ⟨h1, h2⟩ := floorLog10_spec q hq
  have hb : 1 < (10:ℕ) := by norm_num
  have hle : floorLog10 q ≤ Int.log 10 q := by
    rw [← Int.zpow_le_iff_le_log hb hq, natCast_ten_zpow]
    exact h1
  have hlt : Int.log 10 q < floorLog10 q + 1 := by
    rw [← Int.lt_zpow_iff_log_lt hb hq, natCast_ten_zpow]
    exact h2
  omega

lemma fromFloat_of_pos (val : ℚ) (hval : 0 < val) (places : ℤ) :
    Fixed.fromFloat val places
      = some ⟨roundHalfEven (val / (10:ℚ) ^ (Int.log 10 val - places)),
          Int.log 10 val - places⟩ := by
  unfold Fixed.fromFloat
  rw [if_neg (not_le.mpr hval)]
  simp only [floorLog10_eq_log val hval]

lemma log10_mul_zpow (m e : ℤ) (k : ℕ) (h1 : 10 ^ k ≤ m) (h2 : m < 10 ^ (k + 1)) :
    Int.log 10 ((m : ℚ) * (10:ℚ) ^ e) = e + k := by
  have hm0 : (0:ℤ) < m := lt_of_lt_of_le (pow_pos (by norm_num) k) h1
  have hmq : (0:ℚ) < (m : ℚ) := by exact_mod_cast hm0
  have hv : (0:ℚ) < (m : ℚ) * (10:ℚ) ^ e := by positivity
  have hb : 1 < (10:ℕ) := by norm_num
  have hepos : (0:ℚ) < (10:ℚ) ^ e := by positivity
  have hlow : (10:ℚ) ^ (e + (k : ℤ)) ≤ (m : ℚ) * (10:ℚ) ^ e := by
    rw [zpow_add₀ (by norm_num : (10:ℚ) ≠ 0), zpow_natCast]
    have h1q : ((10:ℚ)) ^ k ≤ (m : ℚ) := by exact_mod_cast h1
    calc (10:ℚ) ^ e * (10:ℚ) ^ k ≤ (10:ℚ) ^ e * (m : ℚ) :=
          mul_le_mul_of_nonneg_left h1q hepos.le
      _ = (m : ℚ) * (10:ℚ) ^ e := mul_comm _ _
  have hhigh : (m : ℚ) * (10:ℚ) ^ e < (10:ℚ) ^ (e + (k : ℤ) + 1) := by
    have hstep : e + (k : ℤ) + 1 = e + ((k + 1 : ℕ) : ℤ) := by push_cast; ring
    rw [hstep, zpow_add₀ (by norm_num : (10:ℚ) ≠ 0), zpow_natCast]
    have h2q : (m : ℚ) < ((10:ℚ)) ^ (k + 1) := by exact_mod_cast h2
    calc (m : ℚ) * (10:ℚ) ^ e < ((10:ℚ)) ^ (k + 1) * (10:ℚ) ^ e := by
          exact mul_lt_mul_of_pos_right h2q hepos
      _ = (10:ℚ) ^ e * (10:ℚ) ^ (k + 1) := mul_comm _ _
  have ha := (Int.zpow_le_iff_le_log hb hv).mp (by rw [natCast_ten_zpow]; exact hlow)
  have hc := (Int.lt_zpow_iff_log_lt hb hv).mp (by rw [natCast_ten_zpow]; exact hhigh)
  omega

lemma zpow_int_cast_eq (m : ℤ) (d : ℕ) :
    (m : ℚ) * (10:ℚ) ^ (d : ℤ) = ((m * 10 ^ d : ℤ) : ℚ) := by
  push_cast
  rw [zpow_natCast]

lemma fromFloat_exact (m e : ℤ) (k d : ℕ) (h1 : 10 ^ k ≤ m) (h2 : m < 10 ^ (k + 1)) :
    Fixed.fromFloat ((m : ℚ) * (10:ℚ) ^ e) ((k : ℤ) + (d : ℤ))
      = some ⟨m * 10 ^ d, e - d⟩ := by
  have hm0 : (0:ℤ) < m := lt_of_lt_of_le (pow_pos (by norm_num) k) h1
  have hmq : (0:ℚ) < (m : ℚ) := by exact_mod_cast hm0
  have hv : (0:ℚ) < (m : ℚ) * (10:ℚ) ^ e := by positivity
  rw [fromFloat_of_pos _ hv, log10_mul_zpow m e k h1 h2]
  have hexp : e + (k : ℤ) - ((k : ℤ) + (d : ℤ)) = e - d := by ring
  rw [hexp]
  have hdiv : (m : ℚ) * (10:ℚ) ^ e / (10:ℚ) ^ (e - (d : ℤ)) = ((m * 10 ^ d : ℤ) : ℚ) := by
    rw [div_eq_iff (zpow_ne_zero _ (by norm_num : (10:ℚ) ≠ 0)), ← zpow_int_cast_eq,
      mul_assoc, ← zpow_add₀ (by norm_num : (10:ℚ) ≠ 0)]
    congr 1
    ring_nf
  rw [hdiv, roundHalfEven_intCast]

lemma asFloat_shift (m e : ℤ) (d : ℕ) :
    Fixed.asFloat ⟨m * 10 ^ d, e - d⟩ = (m : ℚ) * (10:ℚ) ^ e := by
  unfold Fixed.asFloat
  rw [← zpow_int_cast_eq, mul_assoc, ← zpow_add₀ (by norm_num : (10:ℚ) ≠ 0)]
  congr 1
  ring_nf

lemma valueColor_roundtrip (c : ℤ) (h0 : 0 ≤ c) (h9 : c ≤ 9) :
    ∃ n, valueColorName c = some n ∧ valueColorCode n = some c := by
  interval_cases c <;> exact ⟨_, rfl, rfl⟩

lemma exponentColor_roundtrip (c : ℤ) (h0 : -3 ≤ c) (h7 : c ≤ 7) :
    ∃ n, exponentColorName c = some n ∧ exponentColorCode n = some c := by
  interval_cases c <;> exact ⟨_, rfl, rfl⟩

lemma digits2 (m : ℤ) (h1 : 10 ≤ m) (h2 : m ≤ 99) :
    0 ≤ m.fdiv 10 ∧ m.fdiv 10 ≤ 9 ∧ 0 ≤ m.fmod 10 ∧ m.fmod 10 ≤ 9 ∧
      m.fdiv 10 * 10 + m.fmod 10 = m := by
  rw [Int.fdiv_eq_ediv _ (by norm_num : (0:ℤ) ≤ 10),
    Int.fmod_eq_emod _ (by norm_num : (0:ℤ) ≤ 10)]
  omega

lemma digits3 (m : ℤ) (h1 : 100 ≤ m) (h2 : m ≤ 999) :
    0 ≤ m.fdiv 100 ∧ m.fdiv 100 ≤ 9 ∧
      0 ≤ (m - m.fdiv 100 * 100).fdiv 10 ∧ (m - m.fdiv 100 * 100).fdiv 10 ≤ 9 ∧
      0 ≤ m.fmod 10 ∧ m.fmod 10 ≤ 9 ∧
      m.fdiv 100 * 100 + (m - m.fdiv 100 * 100).fdiv 10 * 10 + m.fmod 10 = m := by
  rw [Int.fdiv_eq_ediv _ (by norm_num : (0:ℤ) ≤ 100),
    Int.fmod_eq_emod _ (by norm_num : (0:ℤ) ≤ 10),
    Int.fdiv_eq_ediv _ (by norm_num : (0:ℤ) ≤ 10)]
  omega

lemma fromFloat_two_digit (m e : ℤ) (hm1 : 10 ≤ m) (hm2 : m ≤ 99) :
    Fixed.fromFloat ((m : ℚ) * (10:ℚ) ^ e) 2 = some ⟨m * 10, e - 1⟩ := by
  have hk1 : (10:ℤ) ^ (1:ℕ) ≤ m := by rwa [pow_one]
  have hk2 : m < 10 ^ (1 + 1) := by omega
  have h := fromFloat_exact m e 1 1 hk1 hk2
  norm_num at h
  exact h

lemma fromFloat_two_digit_exact (m e : ℤ) (hm1 : 10 ≤ m) (hm2 : m ≤ 99) :
    Fixed.fromFloat ((m : ℚ) * (10:ℚ) ^ e) 1 = some ⟨m, e⟩ := by
  have hk1 : (10:ℤ) ^ (1:ℕ) ≤ m := by rwa [pow_one]
  have hk2 : m < 10 ^ (1 + 1) := by omega
  have h := fromFloat_exact m e 1 0 hk1 hk2
  norm_num at h
  exact h

lemma fromFloat_three_digit_exact (m e : ℤ) (hm1 : 100 ≤ m) (hm2 : m ≤ 999) :
    Fixed.fromFloat ((m : ℚ) * (10:ℚ) ^ e) 2 = some ⟨m, e⟩ := by
  have hk1 : (10:ℤ) ^ (2:ℕ) ≤ m := by omega
  have hk2 : m < 10 ^ (2 + 1) := by omega
  have h := fromFloat_exact m e 2 0 hk1 hk2
  norm_num at h
  exact h

lemma asFloat_times_ten (m e : ℤ) :
    Fixed.asFloat ⟨m * 10, e - 1⟩ = (m : ℚ) * (10:ℚ) ^ e := by
  have h := asFloat_shift m e 1
  norm_num at h
  exact h

lemma roundTrip3_exact (m e : ℤ)
    (hm1 : 10 ≤ m) (hm2 : m ≤ 99) (he1 : -3 ≤ e) (he2 : e ≤ 7) :
    roundTrip3 ((m : ℚ) * (10:ℚ) ^ e) = some ((m : ℚ) * (10:ℚ) ^ e) := by
  obtain ⟨hd0, hd9, hm0, hm9, hrec⟩ := digits2 m hm1 hm2
  obtain ⟨n1, hn1, hc1⟩ := valueColor_roundtrip (m.fdiv 10) hd0 hd9
  obtain ⟨n2, hn2, hc2⟩ := valueColor_roundtrip (m.fmod 10) hm0 hm9
  obtain ⟨n3, hn3, hc3⟩ := exponentColor_roundtrip e he1 he2
  have hff2 := fromFloat_two_digit m e hm1 hm2
  have hff1 := fromFloat_two_digit_exact m e hm1 hm2
  unfold roundTrip3 ResistorValue.fromFloat
  rw [hff2]
  simp only [Option.map_some', Option.some_bind]
  unfold ResistorValue.asThreeBands
  dsimp only
  rw [asFloat_times_ten m e, hff1]
  simp only [Option.some_bind]
  rw [hn1]
  simp only [Option.some_bind]
  rw [hn2]
  simp only [Option.some_bind]
  rw [hn3]
  simp only [Option.map_some', Option.some_bind]
  unfold ResistorValue.fromThreeBands
  rw [hc1]
  simp only [Option.some_bind]
  rw [hc2]
  simp only [Option.some_bind]
  rw [hc3]
  simp only [Option.map_some', Option.some_bind]
  unfold ResistorValue.value Fixed.asFloat
  have hmq : ((m.fdiv 10 * 10 + m.fmod 10 : ℤ) : ℚ) = (m : ℚ) := by exact_mod_cast hrec
  rw [hmq]

lemma asFourBands_exact (m e : ℤ)
    (hm1 : 100 ≤ m) (hm2 : m ≤ 999) (he1 : -3 ≤ e) (he2 : e ≤ 7) :
    ∃ n1 n2 n3 n4,
      (ResistorValue.mk ⟨m, e⟩).asFourBands = some (n1, n2, n3, n4) ∧
      valueColorCode n1 = some (m.fdiv 100) ∧
      valueColorCode n2 = some ((m - m.fdiv 100 * 100).fdiv 10) ∧
      valueColorCode n3 = some (m.fmod 10) ∧
      exponentColorCode n4 = some e := by
  obtain ⟨ha0, ha9, hb0, hb9, hc0, hc9, hrec⟩ := digits3 m hm1 hm2
  obtain ⟨n1, hn1, hcode1⟩ := valueColor_roundtrip (m.fdiv 100) ha0 ha9
  obtain ⟨n2, hn2, hcode2⟩ := valueColor_roundtrip ((m - m.fdiv 100 * 100).fdiv 10) hb0 hb9
  obtain ⟨n3, hn3, hcode3⟩ := valueColor_roundtrip (m.fmod 10) hc0 hc9
  obtain ⟨n4, hn4, hcode4⟩ := exponentColor_roundtrip e he1 he2
  refine ⟨n1, n2, n3, n4, ?_, hcode1, hcode2, hcode3, hcode4⟩
  unfold ResistorValue.asFourBands
  dsimp only
  rw [show Fixed.asFloat ⟨m, e⟩ = (m : ℚ) * (10:ℚ) ^ e from rfl,
    fromFloat_three_digit_exact m e hm1 hm2]
  simp only [Option.some_bind]
  rw [hn1]
  simp only [Option.some_bind]
  rw [hn2]
  simp only [Option.some_bind]
  rw [hn3]
  simp only [Option.some_bind]
  rw [hn4]
  simp only [Option.map_some']

lemma roundTrip4_exact (m e : ℤ)
    (hm1 : 100 ≤ m) (hm2 : m ≤ 999) (he1 : -3 ≤ e) (he2 : e ≤ 7) :
    roundTrip4 ((m : ℚ) * (10:ℚ) ^ e) = some ((m : ℚ) * (10:ℚ) ^ e) := by
  obtain ⟨ha0, ha9, hb0, hb9, hc0, hc9, hrec⟩ := digits3 m hm1 hm2
  obtain ⟨n1, n2, n3, n4, hbands, hcode1, hcode2, hcode3, hcode4⟩ :=
    asFourBands_exact m e hm1 hm2 he1 he2
  unfold roundTrip4 ResistorValue.fromFloat
  rw [fromFloat_three_digit_exact m e hm1 hm2]
  simp only [Option.map_some', Option.some_bind]
  rw [hbands]
  simp only [Option.some_bind]
  unfold ResistorValue.fromFourBands
  rw [hcode1]
  simp only [Option.some_bind]
  rw [hcode2]
  simp only [Option.some_bind]
  rw [hcode3]
  simp only [Option.some_bind]
  rw [hcode4]
  simp only [Option.map_some', Option.some_bind]
  unfold ResistorValue.value Fixed.asFloat
  have hmq : ((m.fdiv 100 * 100 + (m - m.fdiv 100 * 100).fdiv 10 * 10 + m.fmod 10 : ℤ) : ℚ)
      = (m : ℚ) := by exact_mod_cast hrec
  rw [hmq]

lemma valueColorName_none_of_ge_ten (c : ℤ) (hc : 10 ≤ c) : valueColorName c = none := by
  unfold valueColorName
  split_ifs <;> first | rfl | omega

lemma tens_digit_ge_ten (m : ℤ) (hm : 100 ≤ m) : 10 ≤ m.fdiv 10 := by
  rw [Int.fdiv_eq_ediv _ (by norm_num : (0:ℤ) ≤ 10)]
  omega

end Resistor

set_option maxRecDepth 10000

namespace Resistor

/-- C4 counterexample: the three-band decomposition is not computed from
`Fixed.from_float(as_float, places=2)`: for the resistor value wrapping
`Fixed(47, 0)`, the code produces the bands yellow, violet, black, while
the spec-described construction with `places = 2` re-derives mantissa 470,
whose tens split 47 has no value color, and so produces nothing. -/
theorem c4_counterexample :
    (ResistorValue.mk ⟨47, 0⟩).asThreeBands = some ("yellow", "violet", "black") ∧
      specThreeBandDecomp 2 (ResistorValue.mk ⟨47, 0⟩) = none := by
  constructor <;> with_unfolding_all decide

/-- C4 (amended): for every ResistorValue, the 3-band decomposition
re-derives a fixed-point value via `Fixed.from_float(as_float, places=1)`
(which yields the 2-digit mantissa), splits that mantissa into a tens digit
and a units digit, maps each through the value-color table and the exponent
through the exponent-color table, and returns the 3-tuple of names. -/
theorem c4_three_band_decomposition (r : ResistorValue) :
    r.asThreeBands = specThreeBandDecomp 1 r := by
  unfold ResistorValue.asThreeBands specThreeBandDecomp
  cases h : Fixed.fromFloat r.fixed.asFloat 1 with
  | none => rfl
  | some dec =>
    simp only [Option.some_bind]
    cases h1 : valueColorName (dec.mantissa.fdiv 10) <;>
      cases h2 : valueColorName (dec.mantissa.fmod 10) <;>
        cases h3 : exponentColorName dec.exponent <;>
          simp only [Option.some_bind, Option.none_bind, Option.map_some', Option.map_none']

/-- C5 counterexample: `str(ResistorValue.from_float(220))` is the string
`220Ω` with no space before the ohm sign, not `220 Ω` as claimed: the
fallback branch of `__str__` interpolates the unit directly after the
number. -/
theorem c5_counterexample :
    displayString 220 = some "220Ω" ∧ displayString 220 ≠ some "220 Ω" := by
  constructor <;> with_unfolding_all decide

/-- C5 (amended): the display string is `4.7 kΩ` for input 4700, `220Ω`
(without a space, since 220 < 1000 takes the prefixless fallback format)
for input 220, and `2.2 MΩ` for input 2200000. -/
theorem c5_display_strings :
    displayString 4700 = some "4.7 kΩ" ∧ displayString 220 = some "220Ω" ∧
      displayString 2200000 = some "2.2 MΩ" := by
  refine ⟨?_, ?_, ?_⟩ <;> with_unfolding_all decide

/-- C8: for every non-positive value and every digit count, `from_float`
fails with the domain error of `math.log10` and constructs nothing, both at
the `Fixed` level and through `ResistorValue.from_float`. -/
theorem c8_nonpositive_domain_error (v : ℚ) (hv : v ≤ 0) (places : ℤ) :
    Fixed.fromFloat v places = none ∧ ResistorValue.fromFloat v = none := by
  constructor
  · unfold Fixed.fromFloat
    rw [if_pos hv]
  · unfold ResistorValue.fromFloat Fixed.fromFloat
    rw [if_pos hv]
    rfl

/-- C8 witness: `from_float(0, 2)` raises. -/
theorem c8_witness : Fixed.fromFloat 0 2 = none ∧ ResistorValue.fromFloat 0 = none :=
  c8_nonpositive_domain_error 0 (by norm_num) 2

/-- C9: decoding any band tuple containing a name outside the relevant
table's vocabulary fails with the lookup error and produces no
ResistorValue, for both the 3-band and the 4-band decoder. -/
theorem c9_unknown_color_name (a b c d : String) :
    ((valueColorCode a = none ∨ valueColorCode b = none ∨ exponentColorCode d = none) →
      ResistorValue.fromThreeBands a b d = none) ∧
    ((valueColorCode a = none ∨ valueColorCode b = none ∨ valueColorCode c = none ∨
        exponentColorCode d = none) →
      ResistorValue.fromFourBands a b c d = none) := by
  constructor
  · intro h
    unfold ResistorValue.fromThreeBands
    cases ha : valueColorCode a with
    | none => rfl
    | some c1 =>
      simp only [Option.some_bind]
      cases hb : valueColorCode b with
      | none => rfl
      | some c2 =>
        simp only [Option.some_bind]
        cases hd : exponentColorCode d with
        | none => rfl
        | some e =>
          rcases h with h | h | h <;> simp_all
  · intro h
    unfold ResistorValue.fromFourBands
    cases ha : valueColorCode a with
    | none => rfl
    | some c1 =>
      simp only [Option.some_bind]
      cases hb : valueColorCode b with
      | none => rfl
      | some c2 =>
        simp only [Option.some_bind]
        cases hc : valueColorCode c with
        | none => rfl
        | some c3 =>
          simp only [Option.some_bind]
          cases hd : exponentColorCode d with
          | none => rfl
          | some e =>
            rcases h with h | h | h | h <;> simp_all

/-- C9 witness: an unknown value color and an unknown exponent color each
make decoding fail. -/
theorem c9_witness :
    ResistorValue.fromThreeBands "lavender" "black" "red" = none ∧
      ResistorValue.fromFourBands "black" "black" "black" "teal" = none :=
  ⟨(c9_unknown_color_name "lavender" "black" "black" "red").1 (Or.inl rfl),
   (c9_unknown_color_name "black" "black" "black" "teal").2
     (Or.inr (Or.inr (Or.inr rfl)))⟩

/-- C10: whenever the re-derived 2-digit mantissa of the 3-band decode
overflows to three digits (mantissa at least 100), the tens digit is at
least 10, its value-color lookup fails, and `as_three_bands` returns
nothing: no carry into the exponent is performed and no band tuple is
produced. -/
theorem c10_rounding_overflow (r : ResistorValue) (dec : Fixed)
    (hdec : Fixed.fromFloat r.fixed.asFloat 1 = some dec) (hm : 100 ≤ dec.mantissa) :
    valueColorName (dec.mantissa.fdiv 10) = none ∧ r.asThreeBands = none := by
  have hname : valueColorName (dec.mantissa.fdiv 10) = none :=
    valueColorName_none_of_ge_ten _ (tens_digit_ge_ten dec.mantissa hm)
  refine ⟨hname, ?_⟩
  unfold ResistorValue.asThreeBands
  rw [hdec]
  simp only [Option.some_bind]
  rw [hname]
  rfl

/-- C10 witness: the value 99.6 (stored as `Fixed(996, -1)`) re-rounds at
3-band precision to mantissa 100, and `as_three_bands` fails on it. -/
theorem c10_witness :
    Fixed.fromFloat ((ResistorValue.mk ⟨996, -1⟩).fixed.asFloat) 1 = some ⟨100, 0⟩ ∧
      (ResistorValue.mk ⟨996, -1⟩).asThreeBands = none := by
  have h1 : Fixed.fromFloat ((ResistorValue.mk ⟨996, -1⟩).fixed.asFloat) 1
      = some ⟨100, 0⟩ := by
    with_unfolding_all decide
  exact ⟨h1, (c10_rounding_overflow _ _ h1 (by norm_num)).2⟩

/-- C1 counterexample: `Fixed.from_float(47, 2)` returns mantissa 470 and
exponent -1, while the claim's formula `floor(log10 47) - (2 - 1)` gives
exponent 0 and a 2-digit mantissa in [10, 99]: the code subtracts `places`
itself, not `places - 1`. -/
theorem c1_counterexample :
    Fixed.fromFloat 47 2 = some ⟨470, -1⟩ ∧
      ¬((-1 : ℤ) = Int.log 10 (47:ℚ) - (2 - 1)) ∧ ¬((10:ℤ) ≤ 470 ∧ (470:ℤ) ≤ 99) := by
  have hlog : Int.log 10 (47:ℚ) = 1 := by
    rw [← floorLog10_eq_log 47 (by norm_num)]
    with_unfolding_all decide
  refine ⟨by with_unfolding_all decide, ?_, by omega⟩
  rw [hlog]
  omega

/-- C1 (amended): for every positive value `v` and digit count
`places ≥ 0`, `Fixed.from_float(v, places)` returns the fixed-point value
with exponent `floor(log10 v) - places` and mantissa
`round(v / 10^exponent)`, so the mantissa has `places + 1` significant
digits: it lies in `[10^places, 10^(places+1)]` (the upper bound is reached
only by rounding overflow). -/
theorem c1_from_float_rounding (v : ℚ) (hv : 0 < v) (places : ℤ) (hp : 0 ≤ places) :
    ∃ f : Fixed, Fixed.fromFloat v places = some f ∧
      f.exponent = Int.log 10 v - places ∧
      f.mantissa = roundHalfEven (v / (10:ℚ) ^ (Int.log 10 v - places)) ∧
      (10:ℚ) ^ places ≤ (f.mantissa : ℚ) ∧ (f.mantissa : ℚ) ≤ (10:ℚ) ^ (places + 1) := by
  refine ⟨_, fromFloat_of_pos v hv places, rfl, rfl, ?_, ?_⟩
  all_goals
    have hE : (0:ℚ) < (10:ℚ) ^ (Int.log 10 v - places) := by positivity
    have hx1 : (10:ℚ) ^ places ≤ v / (10:ℚ) ^ (Int.log 10 v - places) := by
      rw [le_div_iff₀ hE]
      calc (10:ℚ) ^ places * (10:ℚ) ^ (Int.log 10 v - places)
          = (10:ℚ) ^ (Int.log 10 v) := by
            rw [← zpow_add₀ (by norm_num : (10:ℚ) ≠ 0)]
            congr 1
            ring
        _ ≤ v := by
            rw [← natCast_ten_zpow]
            exact Int.zpow_log_le_self (by norm_num) hv
    have hx2 : v / (10:ℚ) ^ (Int.log 10 v - places) < (10:ℚ) ^ (places + 1) := by
      rw [div_lt_iff₀ hE]
      calc v < (10:ℚ) ^ (Int.log 10 v + 1) := by
            rw [← natCast_ten_zpow]
            exact Int.lt_zpow_succ_log_self (by norm_num) v
        _ = (10:ℚ) ^ (places + 1) * (10:ℚ) ^ (Int.log 10 v - places) := by
            rw [← zpow_add₀ (by norm_num : (10:ℚ) ≠ 0)]
            congr 1
            ring
    have hcast : ((10 ^ places.toNat : ℤ) : ℚ) = (10:ℚ) ^ places := by
      push_cast
      rw [← zpow_natCast (10:ℚ) places.toNat, Int.toNat_of_nonneg hp]
    have hcast1 : ((10 ^ (places.toNat + 1) : ℤ) : ℚ) = (10:ℚ) ^ (places + 1) := by
      push_cast
      rw [← zpow_natCast (10:ℚ) (places.toNat + 1)]
      congr 1
      push_cast
      rw [Int.toNat_of_nonneg hp]
    have hfloor_lo : (10 ^ places.toNat : ℤ) ≤ ⌊v / (10:ℚ) ^ (Int.log 10 v - places)⌋ := by
      rw [Int.le_floor, hcast]
      exact hx1
    have hfloor_hi : ⌊v / (10:ℚ) ^ (Int.log 10 v - places)⌋ < (10 ^ (places.toNat + 1) : ℤ) := by
      rw [Int.floor_lt, hcast1]
      exact hx2
    obtain ⟨hr1, hr2⟩ := roundHalfEven_bounds (v / (10:ℚ) ^ (Int.log 10 v - places))
  · rw [← hcast]
    exact_mod_cast le_trans hfloor_lo hr1
  · rw [← hcast1]
    exact_mod_cast le_trans hr2 (Int.lt_iff_add_one_le.mp hfloor_hi)

/-- C1 witness: the amended statement instantiated at `v = 47`,
`places = 2`. -/
theorem c1_witness :
    ∃ f : Fixed, Fixed.fromFloat 47 2 = some f ∧
      f.exponent = Int.log 10 (47:ℚ) - 2 ∧
      f.mantissa = roundHalfEven (47 / (10:ℚ) ^ (Int.log 10 (47:ℚ) - 2)) ∧
      (10:ℚ) ^ (2:ℤ) ≤ (f.mantissa : ℚ) ∧ (f.mantissa : ℚ) ≤ (10:ℚ) ^ (2 + 1 : ℤ) :=
  c1_from_float_rounding 47 (by norm_num) 2 (by norm_num)

/-- C2 counterexample: `10^9 = 10 * 10^8` is exactly representable with 2
significant digits, yet the 3-band encode fails (the derived exponent 8 has
no exponent color), so the round trip returns nothing rather than the
value. -/
theorem c2_counterexample :
    (∃ m e : ℤ, 10 ≤ m ∧ m ≤ 99 ∧ (10:ℚ) ^ (9:ℤ) = (m : ℚ) * (10:ℚ) ^ e) ∧
      roundTrip3 ((10:ℚ) ^ (9:ℤ)) = none := by
  constructor
  · exact ⟨10, 8, by norm_num, by norm_num, by norm_num⟩
  · with_unfolding_all decide

/-- C2 (amended): for every value `m * 10^e` exactly representable with 2
significant digits (`10 ≤ m ≤ 99`) whose derived exponent `e` lies in the
exponent-color domain `-3..7`, the 3-band round trip is the identity:
decoding the names produced by `as_three_bands` recovers the value. -/
theorem c2_three_band_round_trip (m e : ℤ) (hm1 : 10 ≤ m) (hm2 : m ≤ 99)
    (he1 : -3 ≤ e) (he2 : e ≤ 7) :
    roundTrip3 ((m : ℚ) * (10:ℚ) ^ e) = some ((m : ℚ) * (10:ℚ) ^ e) :=
  roundTrip3_exact m e hm1 hm2 he1 he2

/-- C2 witness: the round trip at 470 = 47 * 10. -/
theorem c2_witness :
    roundTrip3 ((47 : ℚ) * (10:ℚ) ^ (1:ℤ)) = some ((47 : ℚ) * (10:ℚ) ^ (1:ℤ)) :=
  c2_three_band_round_trip 47 1 (by norm_num) (by norm_num) (by norm_num) (by norm_num)

/-- C3 counterexample: `10^10 = 100 * 10^8` is exactly representable with 3
significant digits, yet the 4-band encode fails (exponent 8 has no color),
so the round trip returns nothing. -/
theorem c3_counterexample :
    (∃ m e : ℤ, 100 ≤ m ∧ m ≤ 999 ∧ (10:ℚ) ^ (10:ℤ) = (m : ℚ) * (10:ℚ) ^ e) ∧
      roundTrip4 ((10:ℚ) ^ (10:ℤ)) = none := by
  constructor
  · exact ⟨100, 8, by norm_num, by norm_num, by norm_num⟩
  · with_unfolding_all decide

/-- C3 (amended): for every value `m * 10^e` exactly representable with 3
significant digits (`100 ≤ m ≤ 999`) whose derived exponent lies in
`-3..7`, the 4-band round trip is the identity, and the encode splits the
3-digit mantissa as `first = mantissa // 100`,
`second = (mantissa - first*100) // 10`, `third = mantissa % 10`. -/
theorem c3_four_band_round_trip (m e : ℤ) (hm1 : 100 ≤ m) (hm2 : m ≤ 999)
    (he1 : -3 ≤ e) (he2 : e ≤ 7) :
    roundTrip4 ((m : ℚ) * (10:ℚ) ^ e) = some ((m : ℚ) * (10:ℚ) ^ e) ∧
      ∃ n1 n2 n3 n4,
        (ResistorValue.mk ⟨m, e⟩).asFourBands = some (n1, n2, n3, n4) ∧
        valueColorCode n1 = some (m.fdiv 100) ∧
        valueColorCode n2 = some ((m - m.fdiv 100 * 100).fdiv 10) ∧
        valueColorCode n3 = some (m.fmod 10) ∧
        exponentColorCode n4 = some e :=
  ⟨roundTrip4_exact m e hm1 hm2 he1 he2, asFourBands_exact m e hm1 hm2 he1 he2⟩

/-- C3 witness: the round trip at 123000 = 123 * 10^3, the spec's
digit-split example. -/
theorem c3_witness :
    roundTrip4 ((123 : ℚ) * (10:ℚ) ^ (3:ℤ)) = some ((123 : ℚ) * (10:ℚ) ^ (3:ℤ)) ∧
      ∃ n1 n2 n3 n4,
        (ResistorValue.mk ⟨123, 3⟩).asFourBands = some (n1, n2, n3, n4) ∧
        valueColorCode n1 = some ((123:ℤ).fdiv 100) ∧
        valueColorCode n2 = some (((123:ℤ) - (123:ℤ).fdiv 100 * 100).fdiv 10) ∧
        valueColorCode n3 = some ((123:ℤ).fmod 10) ∧
        exponentColorCode n4 = some 3 :=
  c3_four_band_round_trip 123 3 (by norm_num) (by norm_num) (by norm_num) (by norm_num)

/-- C6: every code in each table's domain round-trips through its name
(value colors 0..9, exponent colors -3..7, the fixed tolerance
percentages); gray and grey resolve to the same code, and the
code-to-name direction returns the canonical spelling `gray`. -/
theorem c6_table_bijectivity :
    (∀ c : ℤ, 0 ≤ c → c ≤ 9 →
      ∃ n, valueColorName c = some n ∧ valueColorCode n = some c) ∧
    (∀ c : ℤ, -3 ≤ c → c ≤ 7 →
      ∃ n, exponentColorName c = some n ∧ exponentColorCode n = some c) ∧
    (∀ p ∈ tolerancePercentages,
      ∃ n, toleranceNameOfPercent p = some n ∧ tolerancePercentOfName n = some p) ∧
    (valueColorCode "gray" = some 8 ∧ valueColorCode "grey" = some 8 ∧
      valueColorName 8 = some "gray") ∧
    (tolerancePercentOfName "gray" = some (1/20) ∧
      tolerancePercentOfName "grey" = some (1/20) ∧
      toleranceNameOfPercent (1/20) = some "gray") := by
  refine ⟨valueColor_roundtrip, exponentColor_roundtrip, ?_, ⟨rfl, rfl, ?_⟩,
    ⟨rfl, rfl, ?_⟩⟩
  · intro p hp
    fin_cases hp <;>
      exact ⟨_, by with_unfolding_all rfl, by with_unfolding_all rfl⟩
  · with_unfolding_all decide
  · with_unfolding_all decide

/-- C6 witness: the round trips instantiated at code 8 (the alias pair),
exponent code -3 and tolerance 0.05. -/
theorem c6_witness :
    (∃ n, valueColorName 8 = some n ∧ valueColorCode n = some 8) ∧
    (∃ n, exponentColorName (-3) = some n ∧ exponentColorCode n = some (-3)) ∧
    (∃ n, toleranceNameOfPercent (1/20) = some n ∧ tolerancePercentOfName n = some (1/20)) :=
  ⟨c6_table_bijectivity.1 8 (by norm_num) (by norm_num),
   c6_table_bijectivity.2.1 (-3) (by norm_num) (by norm_num),
   c6_table_bijectivity.2.2.1 (1/20) (by with_unfolding_all decide)⟩

/-- C7: for positive values, `si_prefixer` fails exactly below 1000, picks
`k` (the largest applicable entry of the 3 ↦ k, 6 ↦ M table) on
`[1000, 10^6)` and `M` from `10^6` up, returning the scaled value with the
prefix string; at the threshold the prefix applies, so
`display_string(1000)` is `1 kΩ`. -/
theorem c7_si_prefixer_spec :
    (∀ v : ℚ, 0 < v →
      ((si_prefixer v = none ↔ v < 1000) ∧
        (1000 ≤ v → v < (10:ℚ) ^ (6:ℕ) →
          si_prefixer v = some (v / (10:ℚ) ^ (3:ℕ), "k")) ∧
        ((10:ℚ) ^ (6:ℕ) ≤ v → si_prefixer v = some (v / (10:ℚ) ^ (6:ℕ), "M")))) ∧
      displayString 1000 = some "1 kΩ" := by
  constructor
  · intro v hv
    have h6 : (0:ℚ) < (10:ℚ) ^ (6:ℕ) := by norm_num
    have h3 : (0:ℚ) < (10:ℚ) ^ (3:ℕ) := by norm_num
    have hf6 : ⌊v / (10:ℚ) ^ (6:ℕ)⌋ = 0 ↔ v < (10:ℚ) ^ (6:ℕ) := by
      rw [Int.floor_eq_zero_iff, Set.mem_Ico]
      constructor
      · exact fun h => (div_lt_one h6).mp h.2
      · exact fun h => ⟨div_nonneg hv.le h6.le, (div_lt_one h6).mpr h⟩
    have hf3 : ⌊v / (10:ℚ) ^ (3:ℕ)⌋ = 0 ↔ v < (10:ℚ) ^ (3:ℕ) := by
      rw [Int.floor_eq_zero_iff, Set.mem_Ico]
      constructor
      · exact fun h => (div_lt_one h3).mp h.2
      · exact fun h => ⟨div_nonneg hv.le h3.le, (div_lt_one h3).mpr h⟩
    have h1000 : ((10:ℚ) ^ (3:ℕ)) = 1000 := by norm_num
    unfold si_prefixer
    split_ifs with hM hK
    · refine ⟨⟨fun hcontr => absurd hcontr (by simp), fun hlt => absurd (hf6.mpr ?_) hM⟩,
        fun _ hlt6 => absurd (hf6.mpr hlt6) hM, fun _ => rfl⟩
      calc v < 1000 := hlt
        _ < (10:ℚ) ^ (6:ℕ) := by norm_num
    · have hM0 : v < (10:ℚ) ^ (6:ℕ) := hf6.mp (not_not.mp hM)
      have hK1 : ¬(v < (10:ℚ) ^ (3:ℕ)) := fun hc => hK (hf3.mpr hc)
      refine ⟨⟨fun hcontr => absurd hcontr (by simp), fun hlt => absurd ?_ hK1⟩,
        fun _ _ => rfl, fun h6le => absurd (lt_of_lt_of_le hM0 h6le) (lt_irrefl _)⟩
      rw [h1000]
      exact hlt
    · have hM0 : v < (10:ℚ) ^ (6:ℕ) := hf6.mp (not_not.mp hM)
      have hK0 : v < (10:ℚ) ^ (3:ℕ) := hf3.mp (not_not.mp hK)
      refine ⟨⟨fun _ => ?_, fun _ => rfl⟩,
        fun h3le _ => absurd (lt_of_lt_of_le hK0 (by rw [h1000]; exact h3le)) (lt_irrefl _),
        fun h6le => absurd (lt_of_lt_of_le hM0 h6le) (lt_irrefl _)⟩
      rw [← h1000]
      exact hK0
  · with_unfolding_all decide

/-- C7 witness: the characterization instantiated at 4700. -/
theorem c7_witness :
    (si_prefixer 4700 = none ↔ (4700:ℚ) < 1000) ∧
      ((1000:ℚ) ≤ 4700 → (4700:ℚ) < (10:ℚ) ^ (6:ℕ) →
        si_prefixer 4700 = some ((4700:ℚ) / (10:ℚ) ^ (3:ℕ), "k")) ∧
      ((10:ℚ) ^ (6:ℕ) ≤ 4700 → si_prefixer 4700 = some ((4700:ℚ) / (10:ℚ) ^ (6:ℕ), "M")) :=
  c7_si_prefixer_spec.1 4700 (by norm_num)

end Resistor
